import Mathlib

/-!  Verification of the county-choropleth classification and labelling core
(`src/js/data.js`, `src/js/chart.js`, and the map/state module).

Shallow embedding conventions: JavaScript numbers are modelled as `ℚ`;
a JavaScript `NaN` is `Option.none`; the DOM/SVG boundary is dropped and
only the data transformations are kept.  -/

/- ---------------------------------------------------------------- -/
/- Field parsing (data.js lines 40–59)                               -/
/- ---------------------------------------------------------------- -/

/-- JS `value.toString().replace(/,/g, '')`: remove every comma. -/
def stripCommas (s : String) : String := ⟨ s.data.filter (fun c => c ≠ ',') ⟩

/-- JS `value.includes(":")` (data.js lines 41 and 47). -/
def includesColon (s : String) : Bool := s.data.contains ':'

/-- JS `value.split(":")[0]`: the text before the first colon. -/
def beforeColon (s : String) : String := ⟨ s.data.takeWhile (fun c => c ≠ ':') ⟩

/-- Numeric value of a run of decimal digits, most significant first. -/
def digitsVal (cs : List Char) : ℕ := cs.foldl (fun a c => a * 10 + (c.toNat - 48)) 0

/-- Value of a fractional digit run: the digits that follow the decimal point. -/
def fracVal (cs : List Char) : ℚ := cs.foldr (fun c a => (((c.toNat - 48 : ℕ) : ℚ) + a) / 10) 0

/-- Leading/trailing blanks are ignored by both JS numeric coercions. -/
def trimSpaces (cs : List Char) : List Char :=
  ((cs.dropWhile (fun c => c = ' ')).reverse.dropWhile (fun c => c = ' ')).reverse

/-- Body of JS `Number(...)` on an unsigned decimal literal: digits with an
optional fraction; the whole input must be consumed, otherwise NaN (`none`). -/
def jsDecimalCore (cs : List Char) : Option ℚ :=
  let ip := cs.takeWhile Char.isDigit
  let rest := cs.dropWhile Char.isDigit
  match rest with
  | [] => if ip.isEmpty then none else some ((digitsVal ip : ℕ) : ℚ)
  | '.' :: rest2 =>
    let fp := rest2.takeWhile Char.isDigit
    let rest3 := rest2.dropWhile Char.isDigit
    if !rest3.isEmpty then none
    else if ip.isEmpty && fp.isEmpty then none
    else some (((digitsVal ip : ℕ) : ℚ) + fracVal fp)
  | _ => none

/-- Optional sign in front of a JS decimal literal. -/
def jsSigned (cs : List Char) : Option ℚ :=
  match cs with
  | '-' :: rest => (jsDecimalCore rest).map (fun q => -q)
  | '+' :: rest => jsDecimalCore rest
  | _ => jsDecimalCore cs

/-- JS `Number(s)` (the unary `+` at data.js line 50) on plain decimal strings:
whitespace is trimmed, the empty string coerces to 0, a signed decimal literal
to its value, anything else to NaN (`none`).  Non-finite results such as
"Infinity" are also mapped to `none`, matching the later isFinite filter. -/
def jsNumber (s : String) : Option ℚ :=
  let t := trimSpaces s.data
  if t.isEmpty then some 0 else jsSigned t

/-- Body of JS `parseFloat` after the sign: the longest numeric prefix is
taken and trailing junk is ignored; no digits at all gives NaN (`none`). -/
def floatCore (cs : List Char) : Option ℚ :=
  let ip := cs.takeWhile Char.isDigit
  let rest := cs.dropWhile Char.isDigit
  match rest with
  | '.' :: rest2 =>
    let fp := rest2.takeWhile Char.isDigit
    if ip.isEmpty && fp.isEmpty then none
    else some (((digitsVal ip : ℕ) : ℚ) + fracVal fp)
  | _ => if ip.isEmpty then none else some ((digitsVal ip : ℕ) : ℚ)

/-- JS `parseFloat(s)` (data.js line 48) on plain decimal strings. -/
def jsParseFloat (s : String) : Option ℚ :=
  match trimSpaces s.data with
  | '-' :: rest => (floatCore rest).map (fun q => -q)
  | '+' :: rest => floatCore rest
  | cs => floatCore cs

/-- data.js lines 47–51: a raw CSV cell for the selected field becomes a
number.  Ratio-style cells ("2331:1") are parsed with `parseFloat` applied to
the text before the colon; every other cell has its commas stripped and is
coerced with `Number`.  `none` models NaN. -/
def parseExpressedValue (raw : String) : Option ℚ :=
  if includesColon raw then jsParseFloat (beforeColon raw) else jsNumber (stripCommas raw)

/-- A JavaScript value as it can sit on a record or come out of the
`state.healthByCounty` lookup.  `num none` is the number NaN. -/
inductive JsVal where
  | num (q : Option ℚ)
  | str (s : String)
  | undef
  | jsNull
  deriving DecidableEq, Repr

/-- The guard at map line 159:
`rawValue !== undefined && rawValue !== null && rawValue !== ""`.
Strict inequality against the empty string can only fail on a string value. -/
def labelGuard : JsVal → Bool
  | .undef => false
  | .jsNull => false
  | .str s => s != ""
  | .num _ => true

/-- One CSV row restricted to the region key and the selected field's cell. -/
structure CsvRow where
  county : String
  value : String
  deriving DecidableEq, Repr

/-- data.js lines 56–59: parse every row, keep the finite values (`none`
drops NaN), and sort ascending with the comparator `(a, b) => a - b`. -/
def expressedValuesOf (csv : List CsvRow) : List ℚ :=
  List.insertionSort (fun a b => a ≤ b) (csv.filterMap (fun r => parseExpressedValue r.value))

/- ---------------------------------------------------------------- -/
/- Region classification (map module, setCounties lines 115–128)     -/
/- ---------------------------------------------------------------- -/

/-- The data-break tag put on a county: a concrete break value, the string
"overflow" for values above every break, or the string "none" for a join
miss / NaN value (`noData` here). -/
inductive BucketTag where
  | bucket (b : ℚ)
  | overflow
  | noData
  deriving DecidableEq, Repr

/-- The loop at setCounties lines 121–124: scan the breaks in order and
return the first break that is ≥ the value, else "overflow". -/
def scanBreaks (v : ℚ) : List ℚ → BucketTag
  | [] => .overflow
  | b :: rest => if v ≤ b then .bucket b else scanBreaks v rest

/-- setCounties lines 115–128: `none` outer = no matching record (join miss),
`some none` = record whose parsed value is NaN, otherwise scan the breaks. -/
def dataBreak (record : Option (Option ℚ)) (breaks : List ℚ) : BucketTag :=
  match record with
  | none => .noData
  | some none => .noData
  | some (some v) => scanBreaks v breaks

/- ---------------------------------------------------------------- -/
/- d3 scale semantics used by the classifier                         -/
/- ---------------------------------------------------------------- -/

/-- d3's `quantileSorted(values, p)` (R-7 interpolation) on an ascending
list; `none` only for an empty list. -/
def quantileSorted (values : List ℚ) (p : ℚ) : Option ℚ :=
  if values.length = 0 then none
  else if p ≤ 0 ∨ values.length < 2 then some (values.getD 0 0)
  else if 1 ≤ p then some (values.getD (values.length - 1) 0)
  else
    let i : ℚ := ((values.length - 1 : ℕ) : ℚ) * p
    let i0 : ℕ := (Int.floor i).toNat
    let v0 := values.getD i0 0
    let v1 := values.getD (i0 + 1) 0
    some (v0 + (v1 - v0) * (i - (i0 : ℚ)))

/-- `d3.scaleQuantile().domain(values).range(fiveColors).quantiles()`:
with a 5-element range this is the four thresholds at p = 1/5 … 4/5
(data.js lines 71–74). -/
def quantileThresholds (sortedDomain : List ℚ) : List ℚ :=
  (List.range 4).map (fun j => (quantileSorted sortedDomain (((j : ℚ) + 1) / 5)).getD 0)

/-- `d3.scaleThreshold().domain(breaks)` picks `range[bisectRight(breaks, x)]`;
on the ascending domain the scale requires, `bisectRight` is the number of
domain elements ≤ x.  So this is the palette index a value is painted with
(data.js lines 85–87). -/
def scaleThresholdIndex (domain : List ℚ) (x : ℚ) : ℕ :=
  domain.countP (fun t => decide (t ≤ x))

/-- `d3.schemeReds[n]` is a list of n pairwise distinct colors; modelled by
their indices. -/
def paletteColors (n : ℕ) : List ℕ := List.range n

/- ---------------------------------------------------------------- -/
/- Deduplication: the JS idiom `[...new Set(l)]`                     -/
/- ---------------------------------------------------------------- -/

/-- `[...new Set(l)]` keeps the first occurrence of every element, in
encounter order.  The accumulator is the set of elements already seen. -/
def jsSetDedupAux : List ℚ → List ℚ → List ℚ
  | [], _ => []
  | a :: l, seen => if a ∈ seen then jsSetDedupAux l seen else a :: jsSetDedupAux l (a :: seen)

/-- data.js lines 67 and 78: `[...new Set(l)]`. -/
def jsSetDedup (l : List ℚ) : List ℚ := jsSetDedupAux l []

/- ---------------------------------------------------------------- -/
/- Natural breaks (ss.jenks)                                         -/
/- ---------------------------------------------------------------- -/

/-- Sum of squared deviations from the mean of a class. -/
def ssd (xs : List ℚ) : ℚ :=
  if xs.length = 0 then 0
  else (xs.map (fun x => (x - xs.sum / (xs.length : ℚ)) ^ 2)).sum

/-- Total within-class squared deviation of a partition of `data` given by
the (inclusive) end index of each class. -/
def jenksScoreGo (data : List ℚ) : ℕ → List ℕ → ℚ
  | _, [] => 0
  | s, e :: rest => ssd ((data.drop s).take (e + 1 - s)) + jenksScoreGo data (e + 1) rest

/-- Score of a candidate list of class end indices. -/
def jenksScore (data : List ℚ) (c : List ℕ) : ℚ := jenksScoreGo data 0 c

/-- All ways to cut the sorted sample of length m into k classes, given by
the k ascending class end indices; the last class always ends at m − 1. -/
def jenksEndCandidates (m k : ℕ) : List (List ℕ) :=
  ((List.range (m - 1)).sublists.filter (fun c => c.length = k - 1)).map (fun c => c ++ [m - 1])

/-- Modelled from the spec: the source calls `ss.jenks(expressedValues,
numBreaks)` (simple-statistics), whose code is not in src/.  Per the spec it
is natural-breaks (Jenks) clustering: it cuts the ascending sample into k
classes minimizing within-class variance and returns the k + 1 boundary
values — the implicit sample minimum first, then the value at the end of
each class, the sample maximum last. -/
def ssJenks (data : List ℚ) (k : ℕ) : Option (List ℚ) :=
  match (jenksEndCandidates data.length k).argmin (jenksScore data) with
  | none => none
  | some c => some (data.getD 0 0 :: c.map (fun i => data.getD i 0))

/- ---------------------------------------------------------------- -/
/- The classifier (data.js callback, lines 56–88)                    -/
/- ---------------------------------------------------------------- -/

inductive ClassifyMode where
  | quantile
  | naturalBreaks
  deriving DecidableEq, Repr

structure ClassifyOutcome where
  mode : ClassifyMode
  breaks : List ℚ
  paletteSize : ℕ
  deriving DecidableEq, Repr

/-- data.js lines 61–88 on the already parsed, filtered, ascending sample.
Fewer than 2 valid values: alert naming the field and throw.  Fewer than 5
distinct values: quantile fallback over `d3.schemeReds[5]` (the source
assigns that scale to an undeclared `colorScale`, while every consumer reads
`state.colorScale`; the branch is modelled by its intended outcome — see the
C3 analysis).  Otherwise Jenks with k = min(9, U − 1), drop the first
returned boundary, deduplicate, palette of breaks + 1 colors. -/
def callbackClassify (expressed : String) (expressedValues : List ℚ) :
    Except String ClassifyOutcome :=
  if expressedValues.length < 2 then
    .error ("Not enough valid data for \"" ++ expressed ++ "\"")
  else
    let unique := jsSetDedup expressedValues
    if unique.length < 5 then
      .ok { mode := .quantile, breaks := quantileThresholds expressedValues, paletteSize := 5 }
    else
      let numBreaks := min 9 (unique.length - 1)
      match ssJenks expressedValues numBreaks with
      | none => .error "jenks failed"
      | some rawBreaks =>
        let breaksArray := jsSetDedup (rawBreaks.drop 1)
        .ok { mode := .naturalBreaks, breaks := breaksArray,
              paletteSize := breaksArray.length + 1 }

/-- The pieces of the global `state` object the callback touches. -/
structure AppStateModel where
  healthByCounty : List (String × JsVal)
  colorScale : Option (List ℚ)
  isRatioField : Bool
  deriving DecidableEq, Repr

/-- data.js callback, state effects and outcome: the ratio flag and the
per-county lookup are written during the parse loop (lines 41–53), before
the <2-valid-values check at line 61; only the natural-breaks branch writes
`state.colorScale` (line 85 — the quantile branch's assignment at line 71
goes to an undeclared `colorScale` instead, so the state scale keeps its
previous value there). -/
def runCallback (st : AppStateModel) (expressed : String) (csv : List CsvRow) :
    AppStateModel × Except String ClassifyOutcome :=
  let isRatio := includesColon ((csv.headD ⟨ "", "" ⟩).value)
  let health := csv.map (fun r => (r.county, JsVal.num (parseExpressedValue r.value)))
  let st1 : AppStateModel :=
    { st with healthByCounty := health, isRatioField := isRatio }
  match callbackClassify expressed (expressedValuesOf csv) with
  | .error e => (st1, .error e)
  | .ok out =>
    match out.mode with
    | .naturalBreaks => ({ st1 with colorScale := some out.breaks }, .ok out)
    | .quantile => (st1, .ok out)

/- ---------------------------------------------------------------- -/
/- Display formatting (data.js formatNumber, chart.js line 90)       -/
/- ---------------------------------------------------------------- -/

/-- Insert a comma after every group of three digits, working over the
reversed digit list; the counter is the number of digits since the last
separator. -/
def groupRevAux : List Char → ℕ → List Char
  | [], _ => []
  | c :: cs, k => if k = 3 then ',' :: c :: groupRevAux cs 1 else c :: groupRevAux cs (k + 1)

/-- Thousands grouping of a digit string (most significant digit first). -/
def groupThousands (d : List Char) : List Char := (groupRevAux d.reverse 0).reverse

/-- data.js formatNumber (lines 112–117): `toLocaleString` with 0 fraction
digits for whole numbers, exactly 2 (half-away-from-zero rounding) otherwise,
with en-US thousands grouping. -/
def formatNumber (q : ℚ) : String :=
  if q.den = 1 then
    ⟨ (if q.num < 0 then ['-'] else []) ++ groupThousands (Nat.toDigits 10 q.num.natAbs) ⟩
  else
    let cents : ℕ := (Int.floor (|q| * 100 + 1 / 2)).toNat
    let ip := cents / 100
    let fr := cents % 100
    ⟨ (if q < 0 then ['-'] else []) ++ groupThousands (Nat.toDigits 10 ip) ++
        '.' :: [Char.ofNat (48 + fr / 10), Char.ofNat (48 + fr % 10)] ⟩

/-- chart.js line 90: `v => state.isRatioField ? formatNumber(v) + ":1"
: formatNumber(v)` (template-literal form in the source). -/
def formatDisplay (isRatio : Bool) (v : ℚ) : String :=
  if isRatio then formatNumber v ++ ":1" else formatNumber v

/- ---------------------------------------------------------------- -/
/- Bubble-aware reclamp (map module, lines 237–266)                  -/
/- ---------------------------------------------------------------- -/

/-- The requestAnimationFrame body at map lines 240–251: the measured text
width gives a bubble of width textWidth + 12 and height 28; each coordinate
of the label center is clamped so the centered extent stays 6 units inside
the viewport.  Returns the clamped center. -/
def reclampBubble (maxX maxY textWidth x y : ℚ) : ℚ × ℚ :=
  let bubblePadding : ℚ := 6
  let bubbleWidth := textWidth + bubblePadding * 2
  let bubbleHeight : ℚ := 28
  let padding : ℚ := 6
  let x2 := max (bubbleWidth / 2 + padding) (min x (maxX - bubbleWidth / 2 - padding))
  let y2 := max (bubbleHeight / 2 + padding) (min y (maxY - bubbleHeight / 2 - padding))
  (x2, y2)

/-- The bubble rectangle actually drawn (map lines 256–260): x from
center − width/2, but y from center − 16 with height 28, so it is not
vertically centered on the label position. -/
def bubbleRect (textWidth x y : ℚ) : ℚ × ℚ × ℚ × ℚ :=
  (x - (textWidth + 12) / 2, y - 16, textWidth + 12, 28)

deriving instance DecidableEq for Except

/- ---------------------------------------------------------------- -/
/- Helper lemmas: deduplication                                      -/
/- ---------------------------------------------------------------- -/

theorem jsSetDedupAux_sublist : ∀ (l seen : List ℚ), (jsSetDedupAux l seen).Sublist l := by
  intro l
  induction l with
  | nil => intro seen; simp [jsSetDedupAux]
  | cons a t ih =>
    intro seen
    simp only [jsSetDedupAux]
    split
    · exact (ih seen).trans (List.sublist_cons_self a t)
    · exact List.Sublist.cons₂ a (ih (a :: seen))

theorem mem_jsSetDedupAux {x : ℚ} :
    ∀ (l seen : List ℚ), x ∈ jsSetDedupAux l seen ↔ (x ∈ l ∧ x ∉ seen) := by
  intro l
  induction l with
  | nil => intro seen; simp [jsSetDedupAux]
  | cons a t ih =>
    intro seen
    simp only [jsSetDedupAux]
    split
    · rename_i ha
      rw [ih seen]
      constructor
      · rintro ⟨hxt, hxs⟩
        exact ⟨List.mem_cons_of_mem a hxt, hxs⟩
      · rintro ⟨hx, hxs⟩
        rcases List.mem_cons.1 hx with rfl | hxt
        · exact absurd ha hxs
        · exact ⟨hxt, hxs⟩
    · rename_i ha
      simp only [List.mem_cons]
      constructor
      · rintro (rfl | hx)
        · exact ⟨Or.inl rfl, ha⟩
        · rw [ih (a :: seen)] at hx
          exact ⟨Or.inr hx.1, fun hxs => hx.2 (List.mem_cons_of_mem a hxs)⟩
      · rintro ⟨rfl | hxt, hxs⟩
        · exact Or.inl rfl
        · by_cases hxa : x = a
          · exact Or.inl hxa
          · refine Or.inr ((ih (a :: seen)).2 ⟨hxt, ?_⟩)
            simp [List.mem_cons, hxa, hxs]
    
theorem nodup_jsSetDedupAux : ∀ (l seen : List ℚ), (jsSetDedupAux l seen).Nodup := by
  intro l
  induction l with
  | nil => intro seen; simp [jsSetDedupAux]
  | cons a t ih =>
    intro seen
    simp only [jsSetDedupAux]
    split
    · exact ih seen
    · refine List.nodup_cons.2 ⟨fun hmem => ?_, ih (a :: seen)⟩
      exact ((mem_jsSetDedupAux t (a :: seen)).1 hmem).2 (List.mem_cons_self a seen)

theorem jsSetDedup_sublist (l : List ℚ) : (jsSetDedup l).Sublist l := jsSetDedupAux_sublist l []

theorem mem_jsSetDedup {x : ℚ} {l : List ℚ} : x ∈ jsSetDedup l ↔ x ∈ l := by
  unfold jsSetDedup
  rw [mem_jsSetDedupAux]
  simp

theorem jsSetDedup_length_le (l : List ℚ) : (jsSetDedup l).length ≤ l.length :=
  (jsSetDedup_sublist l).length_le

theorem jsSetDedup_sorted_lt {l : List ℚ} (h : l.Sorted (· ≤ ·)) :
    (jsSetDedup l).Sorted (· < ·) := by
  have hle : (jsSetDedup l).Pairwise (· ≤ ·) :=
    List.Pairwise.sublist (jsSetDedup_sublist l) h
  have hne : (jsSetDedup l).Pairwise (· ≠ ·) := nodup_jsSetDedupAux l []
  exact (hle.and hne).imp (fun h => lt_of_le_of_ne h.1 h.2)

/- ---------------------------------------------------------------- -/
/- Helper lemmas: sorted lists and indices                           -/
/- ---------------------------------------------------------------- -/

theorem sorted_getD_mono {l : List ℚ} (h : l.Sorted (· ≤ ·)) {i j : ℕ}
    (hij : i ≤ j) (hj : j < l.length) : l.getD i 0 ≤ l.getD j 0 := by
  have hi : i < l.length := lt_of_le_of_lt hij hj
  rw [List.getD_eq_getElem l 0 hi, List.getD_eq_getElem l 0 hj]
  rcases eq_or_lt_of_le hij with rfl | hlt
  · exact le_refl _
  · exact List.pairwise_iff_get.1 h ⟨i, hi⟩ ⟨j, hj⟩ hlt

theorem sorted_getD_zero_le {l : List ℚ} (h : l.Sorted (· ≤ ·)) {x : ℚ} (hx : x ∈ l) :
    l.getD 0 0 ≤ x := by
  obtain ⟨⟨i, hi⟩, rfl⟩ := List.mem_iff_get.1 hx
  have := sorted_getD_mono h (Nat.zero_le i) hi
  rwa [List.getD_eq_getElem l 0 hi] at this

theorem mem_le_getD_last {l : List ℚ} (h : l.Sorted (· ≤ ·)) {x : ℚ} (hx : x ∈ l) :
    x ≤ l.getD (l.length - 1) 0 := by
  obtain ⟨⟨i, hi⟩, rfl⟩ := List.mem_iff_get.1 hx
  have hm := sorted_getD_mono h (Nat.le_sub_one_of_lt hi)
    (Nat.sub_lt (lt_of_le_of_lt (Nat.zero_le i) hi) one_pos)
  rwa [List.getD_eq_getElem l 0 hi] at hm

theorem getLast?_eq_getD {l : List ℚ} (h : l ≠ []) :
    l.getLast? = some (l.getD (l.length - 1) 0) := by
  have hl : 0 < l.length := List.length_pos.2 h
  have hlt : l.length - 1 < l.length := Nat.sub_lt hl one_pos
  rw [List.getLast?_eq_getElem?, List.getElem?_eq_getElem hlt, List.getD_eq_getElem l 0 hlt]

theorem mem_of_getLast?_eq {l : List ℚ} {a : ℚ} (h : l.getLast? = some a) : a ∈ l := by
  rcases List.eq_nil_or_concat l with rfl | ⟨t, b, rfl⟩
  · simp at h
  · rw [List.concat_eq_append] at h ⊢
    rw [List.getLast?_concat] at h
    cases h
    exact List.mem_append.2 (Or.inr (List.mem_singleton.2 rfl))

theorem getLast?_eq_of_sorted_max {l : List ℚ} (hs : l.Sorted (· ≤ ·)) {b : ℚ}
    (hb : b ∈ l) (hmax : ∀ x ∈ l, x ≤ b) : l.getLast? = some b := by
  have hne : l ≠ [] := List.ne_nil_of_mem hb
  rw [getLast?_eq_getD hne]
  have hl : 0 < l.length := List.length_pos.2 hne
  have hlt : l.length - 1 < l.length := Nat.sub_lt hl one_pos
  have hmem : l.getD (l.length - 1) 0 ∈ l := by
    rw [List.getD_eq_getElem l 0 hlt]
    exact List.getElem_mem hlt
  exact congrArg some (le_antisymm (hmax _ hmem) (mem_le_getD_last hs hb))

theorem getLast?_drop_one {l : List ℚ} (h : 2 ≤ l.length) :
    (l.drop 1).getLast? = l.getLast? := by
  match l, h with
  | a :: b :: t, _ => simp [List.getLast?_cons_cons]

/- ---------------------------------------------------------------- -/
/- Helper lemmas: the break scan                                     -/
/- ---------------------------------------------------------------- -/

theorem scanBreaks_eq_find (v : ℚ) :
    ∀ breaks : List ℚ, scanBreaks v breaks =
      (match breaks.find? (fun b => decide (v ≤ b)) with
        | some b => BucketTag.bucket b
        | none => BucketTag.overflow) := by
  intro breaks
  induction breaks with
  | nil => rfl
  | cons b t ih =>
    by_cases h : v ≤ b
    · simp [scanBreaks, List.find?_cons, h]
    · simp [scanBreaks, List.find?_cons, h, ih]

theorem scanBreaks_eq_bucket_of_mem {v : ℚ} :
    ∀ {breaks : List ℚ}, breaks.Sorted (· < ·) → v ∈ breaks →
      scanBreaks v breaks = BucketTag.bucket v := by
  intro breaks
  induction breaks with
  | nil => intro _ h; cases h
  | cons b t ih =>
    intro hs hm
    rcases List.mem_cons.1 hm with rfl | hmt
    · simp [scanBreaks]
    · have hb : b < v := (List.sorted_cons.1 hs).1 v hmt
      have hnb : ¬ v ≤ b := not_le.2 hb
      simp only [scanBreaks, if_neg hnb]
      exact ih (List.sorted_cons.1 hs).2 hmt

theorem scanBreaks_bucket_of_exists {v : ℚ} :
    ∀ {breaks : List ℚ}, (∃ b ∈ breaks, v ≤ b) →
      ∃ b ∈ breaks, scanBreaks v breaks = BucketTag.bucket b := by
  intro breaks
  induction breaks with
  | nil => rintro ⟨b, hb, -⟩; cases hb
  | cons b t ih =>
    rintro ⟨c, hc, hvc⟩
    by_cases h : v ≤ b
    · exact ⟨b, List.mem_cons_self b t, by simp [scanBreaks, h]⟩
    · rcases List.mem_cons.1 hc with rfl | hct
      · exact absurd hvc h
      · obtain ⟨d, hd, hscan⟩ := ih ⟨c, hct, hvc⟩
        exact ⟨d, List.mem_cons_of_mem b hd, by simp [scanBreaks, h, hscan]⟩

theorem scanBreaks_overflow_of_forall {v : ℚ} :
    ∀ {breaks : List ℚ}, (∀ b ∈ breaks, b < v) → scanBreaks v breaks = BucketTag.overflow := by
  intro breaks
  induction breaks with
  | nil => intro _; rfl
  | cons b t ih =>
    intro h
    have hnb : ¬ v ≤ b := not_le.2 (h b (List.mem_cons_self b t))
    simp only [scanBreaks, if_neg hnb]
    exact ih (fun c hc => h c (List.mem_cons_of_mem b hc))

/- ---------------------------------------------------------------- -/
/- Helper lemmas: the threshold color scale                          -/
/- ---------------------------------------------------------------- -/

theorem thresholdIndex_below_head {breaks : List ℚ} (hs : breaks.Sorted (· ≤ ·)) {v : ℚ}
    (hv : v < breaks.getD 0 0) : scaleThresholdIndex breaks v = 0 := by
  unfold scaleThresholdIndex
  rw [List.countP_eq_zero]
  intro b hb
  simp only [decide_eq_true_eq]
  exact not_le.2 (lt_of_lt_of_le hv (sorted_getD_zero_le hs hb))

theorem thresholdIndex_above_last {breaks : List ℚ} (hs : breaks.Sorted (· ≤ ·)) {v : ℚ}
    (hv : breaks.getD (breaks.length - 1) 0 ≤ v) :
    scaleThresholdIndex breaks v = breaks.length := by
  unfold scaleThresholdIndex
  rw [List.countP_eq_length]
  intro b hb
  simp only [decide_eq_true_eq]
  exact le_trans (mem_le_getD_last hs hb) hv

theorem thresholdIndex_middle :
    ∀ {breaks : List ℚ}, breaks.Sorted (· < ·) → ∀ {i : ℕ} {v : ℚ},
      i + 1 < breaks.length → breaks.getD i 0 ≤ v → v < breaks.getD (i + 1) 0 →
      scaleThresholdIndex breaks v = i + 1 := by
  intro breaks
  induction breaks with
  | nil =>
    intro _ i v h
    simp at h
  | cons b t ih =>
    intro hs i v hlen h1 h2
    have hle : (b :: t).Sorted (· ≤ ·) := hs.imp (fun h => le_of_lt h)
    cases i with
    | zero =>
      have hb : b ≤ v := by rwa [List.getD_cons_zero] at h1
      have ht0 : v < t.getD 0 0 := by rwa [List.getD_cons_succ] at h2
      unfold scaleThresholdIndex
      rw [List.countP_cons_of_pos _ _ (by simp [hb])]
      have htz : t.countP (fun x => decide (x ≤ v)) = 0 := by
        rw [List.countP_eq_zero]
        intro c hc
        simp only [decide_eq_true_eq]
        exact not_le.2 (lt_of_lt_of_le ht0 (sorted_getD_zero_le (List.sorted_cons.1 hle).2 hc))
      rw [htz]
    | succ n =>
      have hlen' : n + 1 < t.length := by simpa using hlen
      have h1' : t.getD n 0 ≤ v := by rwa [List.getD_cons_succ] at h1
      have h2' : v < t.getD (n + 1) 0 := by rwa [List.getD_cons_succ] at h2
      have hb : b ≤ v := by
        have hb0 : (b :: t).getD 0 0 ≤ (b :: t).getD (n + 1) 0 :=
          sorted_getD_mono hle (Nat.zero_le _) (by simpa using lt_trans hlen' (Nat.lt_succ_self _))
      -- b = getD 0 ≤ getD (n+1) = t.getD n ≤ v
        rw [List.getD_cons_zero, List.getD_cons_succ] at hb0
        exact le_trans hb0 h1'
      have := ih (List.sorted_cons.1 hs).2 hlen' h1' h2'
      unfold scaleThresholdIndex at this ⊢
      rw [List.countP_cons_of_pos _ _ (by simp [hb]), this]

/- ---------------------------------------------------------------- -/
/- Claim theorems                                                    -/
/- ---------------------------------------------------------------- -/

/-- C4: for a region with a valid numeric value, the data-break assignment
scans the breaks in ascending order and yields the first break ≥ the value
(`find?` of the predicate), "overflow" when no break qualifies, and a value
exactly equal to a break threshold gets that break's bucket, not the next
one.  The result is a pure function of (value, breaks): no hidden state. -/
theorem assignBucket_scan_C4 (v : ℚ) (breaks : List ℚ) :
    dataBreak (some (some v)) breaks = scanBreaks v breaks ∧
    scanBreaks v breaks =
      (match breaks.find? (fun b => decide (v ≤ b)) with
        | some b => BucketTag.bucket b
        | none => BucketTag.overflow) ∧
    (breaks.Sorted (· < ·) → v ∈ breaks → scanBreaks v breaks = BucketTag.bucket v) :=
  ⟨rfl, scanBreaks_eq_find v breaks, fun hs hm => scanBreaks_eq_bucket_of_mem hs hm⟩

/-- Witness for C4 at value 20 and breaks [10, 20, 30]: the boundary value
20 lands in the bucket tagged 20. -/
theorem assignBucket_scan_C4_witness :
    ([10, 20, 30] : List ℚ).Sorted (· < ·) ∧ (20 : ℚ) ∈ ([10, 20, 30] : List ℚ) ∧
      scanBreaks 20 [10, 20, 30] = BucketTag.bucket 20 :=
  ⟨by decide, by decide, (assignBucket_scan_C4 20 [10, 20, 30]).2.2 (by decide) (by decide)⟩

/-- C6: the ratio cell "42:1" is detected as a ratio, parses to 42, and the
chart's ratio display formatting of 42 reproduces "42:1". -/
theorem ratio_roundtrip_C6 :
    includesColon "42:1" = true ∧ parseExpressedValue "42:1" = some 42 ∧
      formatDisplay true 42 = "42:1" := by
  refine ⟨by decide, by decide, by decide⟩

/-- C7, behavior at the failing input: an empty raw cell coerces to the
number 0 (JS `+"" === 0`), so it is not invalid, it enters the numeric
sample as 0, and — because the parse loop already overwrote the record field
with that number — the label-placement guard against the empty string
passes. -/
theorem empty_value_becomes_zero_C7 :
    parseExpressedValue "" = some 0 ∧
    labelGuard (JsVal.num (parseExpressedValue "")) = true ∧
    (0 : ℚ) ∈ expressedValuesOf [⟨ "Adams", "" ⟩, ⟨ "Brown", "5" ⟩, ⟨ "Clark", "7" ⟩] := by
  refine ⟨by decide, by decide, by decide⟩

/-- C2 counterexample: with breaks [10, 20], the value 10 — equal to
breaks[0] — is painted with palette index 1, not bucket 0's color:
d3.scaleThreshold is left-inclusive at its thresholds. -/
theorem colorMap_at_break_cex_C2 :
    (10 : ℚ) ≤ 10 ∧ scaleThresholdIndex [10, 20] 10 = 1 ∧
      (paletteColors 3).getD (scaleThresholdIndex [10, 20] 10) 99 ≠
        (paletteColors 3).getD 0 99 := by
  decide

/-- C2 amended: the color scale is a left-inclusive threshold function —
a value < breaks[0] gets bucket 0's color, breaks[i] ≤ v < breaks[i+1] gets
bucket i+1's color (a value equal to a break gets the bucket above it),
v ≥ the last break gets the extra last palette color, and a value strictly
above the last break is observably tagged "overflow" by the region
classifier downstream. -/
theorem colorMap_threshold_amended_C2 {breaks : List ℚ} (hs : breaks.Sorted (· < ·)) :
    (∀ v : ℚ, v < breaks.getD 0 0 → scaleThresholdIndex breaks v = 0) ∧
    (∀ (v : ℚ) (i : ℕ), i + 1 < breaks.length → breaks.getD i 0 ≤ v →
       v < breaks.getD (i + 1) 0 → scaleThresholdIndex breaks v = i + 1) ∧
    (∀ v : ℚ, breaks.getD (breaks.length - 1) 0 ≤ v →
       scaleThresholdIndex breaks v = breaks.length) ∧
    (∀ v : ℚ, breaks.getD (breaks.length - 1) 0 < v →
       dataBreak (some (some v)) breaks = BucketTag.overflow) := by
  have hle : breaks.Sorted (· ≤ ·) := hs.imp (fun h => le_of_lt h)
  refine ⟨fun v hv => thresholdIndex_below_head hle hv,
    fun v i h1 h2 h3 => thresholdIndex_middle hs h1 h2 h3,
    fun v hv => thresholdIndex_above_last hle hv,
    fun v hv => ?_⟩
  show scanBreaks v breaks = BucketTag.overflow
  exact scanBreaks_overflow_of_forall
    (fun b hb => lt_of_le_of_lt (mem_le_getD_last hle hb) hv)

/-- Witness for the amended C2 at breaks [10, 20]: 5 (below the first
break) has palette index 0, and 25 (above the last break) is tagged
overflow. -/
theorem colorMap_threshold_amended_C2_witness :
    ([10, 20] : List ℚ).Sorted (· < ·) ∧
      scaleThresholdIndex [10, 20] 5 = 0 ∧
      dataBreak (some (some 25)) [10, 20] = BucketTag.overflow :=
  ⟨by decide, (colorMap_threshold_amended_C2 (by decide)).1 5 (by decide),
    (colorMap_threshold_amended_C2 (by decide)).2.2.2 25 (by decide)⟩

/-- C9 counterexample: viewport 400 × 300, measured text width 50, candidate
label center (0, 0).  The reclamp gives center (37, 20), and the drawn
bubble rectangle starts at y = 4 — inside the 6-unit padding band, because
the rectangle spans y − 16 … y + 12 while the clamp centers y at 14 + 6. -/
theorem bubble_reclamp_cex_C9 :
    reclampBubble 400 300 50 0 0 = (37, 20) ∧
      (bubbleRect 50 (reclampBubble 400 300 50 0 0).1 (reclampBubble 400 300 50 0 0).2).2.1 = 4 ∧
      ¬ (6 ≤ (bubbleRect 50 (reclampBubble 400 300 50 0 0).1
          (reclampBubble 400 300 50 0 0).2).2.1) := by
  norm_num [reclampBubble, bubbleRect, min_def, max_def]

/-- C9 amended: after the bubble-aware reclamp the bubble rectangle's
horizontal extent lies within the viewport minus the 6-unit padding, but
vertically the rectangle (drawn from y − 16 to y + 12 around the clamped
center) is only guaranteed to stay 4 units from the top edge and 8 units
from the bottom edge. -/
theorem bubble_reclamp_amended_C9 (maxX maxY textWidth x y : ℚ) (_hw : 0 ≤ textWidth)
    (hx : textWidth + 24 ≤ maxX) (hy : 40 ≤ maxY) :
    6 ≤ (reclampBubble maxX maxY textWidth x y).1 - (textWidth + 12) / 2 ∧
    (reclampBubble maxX maxY textWidth x y).1 + (textWidth + 12) / 2 ≤ maxX - 6 ∧
    4 ≤ (reclampBubble maxX maxY textWidth x y).2 - 16 ∧
    (reclampBubble maxX maxY textWidth x y).2 + 12 ≤ maxY - 8 := by
  simp only [reclampBubble]
  refine ⟨?_, ?_, ?_, ?_⟩
  · have h := le_max_left ((textWidth + 6 * 2) / 2 + 6)
      (min x (maxX - (textWidth + 6 * 2) / 2 - 6))
    linarith
  · have h := max_le (by linarith :
        (textWidth + 6 * 2) / 2 + 6 ≤ maxX - (textWidth + 6 * 2) / 2 - 6)
      (min_le_right x (maxX - (textWidth + 6 * 2) / 2 - 6))
    linarith
  · have h := le_max_left ((28 : ℚ) / 2 + 6) (min y (maxY - 28 / 2 - 6))
    linarith
  · have h := max_le (by linarith : (28 : ℚ) / 2 + 6 ≤ maxY - 28 / 2 - 6)
      (min_le_right y (maxY - (28 : ℚ) / 2 - 6))
    linarith

/-- Witness for the amended C9 at viewport 400 × 300, text width 50,
candidate (0, 0). -/
theorem bubble_reclamp_amended_C9_witness :
    (0 : ℚ) ≤ 50 ∧ (50 : ℚ) + 24 ≤ 400 ∧ (40 : ℚ) ≤ 300 ∧
      (6 ≤ (reclampBubble 400 300 50 0 0).1 - (50 + 12) / 2 ∧
       (reclampBubble 400 300 50 0 0).1 + (50 + 12) / 2 ≤ 400 - 6 ∧
       4 ≤ (reclampBubble 400 300 50 0 0).2 - 16 ∧
       (reclampBubble 400 300 50 0 0).2 + 12 ≤ 300 - 8) :=
  ⟨by norm_num, by norm_num, by norm_num,
    bubble_reclamp_amended_C9 400 300 50 0 0 (by norm_num) (by norm_num) (by norm_num)⟩

/-- C5 counterexample: one CSV row whose cell "abc" fails coercion.  The
callback does fail with the alert message naming the field ("YPLL") and no
classification outcome is produced — but `state.healthByCounty` has already
been replaced by the new parse before the check, while `state.colorScale`
keeps the previous field's scale: partial/stale state persists past the
failure. -/
theorem insufficient_data_cex_C5 :
    (runCallback ⟨[("Old", JsVal.num (some 1))], some [10], false⟩ "YPLL"
        [⟨ "Ashland", "abc" ⟩]).2 =
      .error "Not enough valid data for \"YPLL\"" ∧
    (runCallback ⟨[("Old", JsVal.num (some 1))], some [10], false⟩ "YPLL"
        [⟨ "Ashland", "abc" ⟩]).1.healthByCounty ≠ [("Old", JsVal.num (some 1))] ∧
    (runCallback ⟨[("Old", JsVal.num (some 1))], some [10], false⟩ "YPLL"
        [⟨ "Ashland", "abc" ⟩]).1.colorScale = some [10] := by
  refine ⟨by decide, by decide, by decide⟩

/-- C5 amended: with fewer than 2 valid values the callback throws with the
alert message naming the field and produces no classification outcome (so
nothing is rendered), and the color scale is left untouched — but the
per-county lookup and ratio flag written by the parse loop before the check
do persist. -/
theorem insufficient_data_amended_C5 (st : AppStateModel) (expressed : String)
    (csv : List CsvRow) (h : (expressedValuesOf csv).length < 2) :
    (runCallback st expressed csv).2 =
      .error ("Not enough valid data for \"" ++ expressed ++ "\"") ∧
    (runCallback st expressed csv).1.colorScale = st.colorScale ∧
    (runCallback st expressed csv).1.healthByCounty =
      csv.map (fun r => (r.county, JsVal.num (parseExpressedValue r.value))) := by
  unfold runCallback callbackClassify
  rw [if_pos h]
  exact ⟨rfl, rfl, rfl⟩

/-- Witness for the amended C5 on a single-row CSV whose cell fails
coercion. -/
theorem insufficient_data_amended_C5_witness :
    (expressedValuesOf [⟨ "X", "n/a" ⟩]).length < 2 ∧
      ((runCallback ⟨[], none, false⟩ "Deaths" [⟨ "X", "n/a" ⟩]).2 =
        .error ("Not enough valid data for \"" ++ "Deaths" ++ "\"") ∧
       (runCallback ⟨[], none, false⟩ "Deaths" [⟨ "X", "n/a" ⟩]).1.colorScale = none ∧
       (runCallback ⟨[], none, false⟩ "Deaths" [⟨ "X", "n/a" ⟩]).1.healthByCounty =
         ([⟨ "X", "n/a" ⟩] : List CsvRow).map
           (fun r => (r.county, JsVal.num (parseExpressedValue r.value)))) :=
  ⟨by decide, insufficient_data_amended_C5 ⟨[], none, false⟩ "Deaths" [⟨ "X", "n/a" ⟩] (by decide)⟩

/-- C3, intended behavior at the failing input: for the sample [3, 3, 3, 5]
(2 distinct values) the quantile branch is taken and the d3 quantile scale
over the fixed 5-color palette yields exactly 4 threshold values.  The
source's slip: that scale is assigned to the undeclared `colorScale`
(data.js line 71) instead of `state.colorScale`, so the state's color scale
— read by every consumer — keeps its previous value on this branch, as the
last conjunct shows. -/
theorem quantile_mode_intended_C3 :
    (jsSetDedup [3, 3, 3, 5]).length < 5 ∧
    callbackClassify "f" [3, 3, 3, 5] =
      .ok ⟨ClassifyMode.quantile, quantileThresholds [3, 3, 3, 5], 5⟩ ∧
    (quantileThresholds [3, 3, 3, 5]).length = 4 ∧
    (runCallback ⟨[], some [99], false⟩ "f"
        [⟨ "A", "3" ⟩, ⟨ "B", "3" ⟩, ⟨ "C", "3" ⟩, ⟨ "D", "5" ⟩]).1.colorScale = some [99] := by
  refine ⟨by decide, by rfl, by rfl, by rfl⟩

/- ---------------------------------------------------------------- -/
/- Helper lemmas: the natural-breaks model                           -/
/- ---------------------------------------------------------------- -/

theorem jenksEndCandidates_mem {m k : ℕ} {c : List ℕ} (hk : 1 ≤ k)
    (hc : c ∈ jenksEndCandidates m k) :
    c.length = k ∧ c.Pairwise (· < ·) ∧ (∀ i ∈ c, i ≤ m - 1) ∧
      c.getLast? = some (m - 1) := by
  unfold jenksEndCandidates at hc
  rcases List.mem_map.1 hc with ⟨c0, hc0, rfl⟩
  rcases List.mem_filter.1 hc0 with ⟨hsub, hlen⟩
  have hsub2 : c0.Sublist (List.range (m - 1)) := List.mem_sublists.1 hsub
  have hlen2 : c0.length = k - 1 := by simpa using hlen
  have hc0lt : ∀ i ∈ c0, i < m - 1 := fun i hi => List.mem_range.1 (hsub2.subset hi)
  refine ⟨?_, ?_, ?_, List.getLast?_concat c0⟩
  · simp [hlen2, Nat.sub_add_cancel hk]
  · rw [List.pairwise_append]
    refine ⟨List.Pairwise.sublist hsub2 (List.pairwise_lt_range _),
      List.pairwise_singleton _ _, fun a ha b hb => ?_⟩
    rcases List.mem_singleton.1 hb with rfl
    exact hc0lt a ha
  · intro i hi
    rcases List.mem_append.1 hi with h | h
    · exact le_of_lt (hc0lt i h)
    · rcases List.mem_singleton.1 h with rfl
      exact le_refl _

theorem jenksEndCandidates_ne_nil {m k : ℕ} (hk : 1 ≤ k) (hkm : k ≤ m) :
    jenksEndCandidates m k ≠ [] := by
  unfold jenksEndCandidates
  intro h
  rw [List.map_eq_nil_iff] at h
  have hmem : (List.range (m - 1)).take (k - 1) ∈
      (List.range (m - 1)).sublists.filter (fun c => c.length = k - 1) := by
    rw [List.mem_filter]
    refine ⟨List.mem_sublists.2 (List.take_sublist _ _), ?_⟩
    simp only [List.length_take, List.length_range, decide_eq_true_eq]
    omega
  rw [h] at hmem
  cases hmem

theorem ssJenks_spec {data : List ℚ} {k : ℕ} (hd : data.Sorted (· ≤ ·)) (hk : 1 ≤ k)
    (hkm : k ≤ data.length) :
    ∃ bs : List ℚ, ssJenks data k = some bs ∧ bs.length = k + 1 ∧
      bs.Sorted (· ≤ ·) ∧ (∀ x ∈ bs, x ∈ data) ∧
      bs.getLast? = some (data.getD (data.length - 1) 0) := by
  have hm : 1 ≤ data.length := le_trans hk hkm
  unfold ssJenks
  rcases hc : (jenksEndCandidates data.length k).argmin (jenksScore data) with _ | c
  · exact absurd (List.argmin_eq_none.1 hc) (jenksEndCandidates_ne_nil hk hkm)
  · obtain ⟨hlen, hpw, hbound, hlast⟩ :=
      jenksEndCandidates_mem hk (List.argmin_mem (Option.mem_def.2 hc))
    have hboundm : ∀ i ∈ c, i < data.length := fun i hi => by
      have := hbound i hi
      omega
    refine ⟨_, rfl, ?_, ?_, ?_, ?_⟩
    · simp [hlen]
    · rw [List.sorted_cons]
      constructor
      · intro y hy
        rcases List.mem_map.1 hy with ⟨i, hi, rfl⟩
        exact sorted_getD_mono hd (Nat.zero_le i) (hboundm i hi)
      · rw [List.Sorted, List.pairwise_map]
        refine List.Pairwise.imp_of_mem (fun ha hb hab => ?_) hpw
        exact sorted_getD_mono hd (le_of_lt hab) (hboundm _ hb)
    · intro x hx
      rcases List.mem_cons.1 hx with rfl | hx2
      · rw [List.getD_eq_getElem data 0 (by omega : 0 < data.length)]
        exact List.getElem_mem _
      · rcases List.mem_map.1 hx2 with ⟨i, hi, rfl⟩
        rw [List.getD_eq_getElem data 0 (hboundm i hi)]
        exact List.getElem_mem _
    · cases c with
      | nil => simp at hlen; omega
      | cons c0 cs =>
        rw [List.map_cons, List.getLast?_cons_cons]
        have hmap : (List.map (fun i => data.getD i 0) (c0 :: cs)).getLast? =
            some (data.getD (data.length - 1) 0) := by
          rw [List.getLast?_map, hlast]
          rfl
        rwa [List.map_cons] at hmap

theorem callbackClassify_naturalBreaks (expressed : String) {values : List ℚ}
    (hs : values.Sorted (· ≤ ·)) (h5 : 5 ≤ (jsSetDedup values).length) :
    ∃ rawBreaks : List ℚ,
      ssJenks values (min 9 ((jsSetDedup values).length - 1)) = some rawBreaks ∧
      callbackClassify expressed values =
        .ok { mode := .naturalBreaks, breaks := jsSetDedup (rawBreaks.drop 1),
              paletteSize := (jsSetDedup (rawBreaks.drop 1)).length + 1 } ∧
      (jsSetDedup (rawBreaks.drop 1)).Sorted (· < ·) ∧
      (jsSetDedup (rawBreaks.drop 1)).length ≤ 9 ∧
      (jsSetDedup (rawBreaks.drop 1)).getLast? = values.getLast? ∧
      ∀ v ∈ values, ∃ b ∈ jsSetDedup (rawBreaks.drop 1), v ≤ b := by
  have hUm : (jsSetDedup values).length ≤ values.length := jsSetDedup_length_le values
  have hk1 : 1 ≤ min 9 ((jsSetDedup values).length - 1) :=
    le_min (by omega) (by omega)
  have hk2 : min 9 ((jsSetDedup values).length - 1) ≤ values.length :=
    le_trans (min_le_right _ _) (by omega)
  obtain ⟨bs, hbs, hblen, hbsort, hbmem, hblast⟩ := ssJenks_spec hs hk1 hk2
  have hvne : values ≠ [] := List.ne_nil_of_length_pos (by omega)
  have hcc : callbackClassify expressed values =
      .ok { mode := .naturalBreaks, breaks := jsSetDedup (bs.drop 1),
            paletteSize := (jsSetDedup (bs.drop 1)).length + 1 } := by
    simp only [callbackClassify]
    rw [if_neg (by omega), if_neg (by omega), hbs]
  have hds : (bs.drop 1).Sorted (· ≤ ·) :=
    List.Pairwise.sublist (List.drop_sublist 1 bs) hbsort
  have hsort : (jsSetDedup (bs.drop 1)).Sorted (· < ·) := jsSetDedup_sorted_lt hds
  have hlen9 : (jsSetDedup (bs.drop 1)).length ≤ 9 := by
    have h1 := jsSetDedup_length_le (bs.drop 1)
    have h2 : (bs.drop 1).length = min 9 ((jsSetDedup values).length - 1) := by
      rw [List.length_drop, hblen]
      omega
    have h3 : min 9 ((jsSetDedup values).length - 1) ≤ 9 := min_le_left _ _
    omega
  have hbs2 : 2 ≤ bs.length := by omega
  have hdlast : (bs.drop 1).getLast? = some (values.getD (values.length - 1) 0) := by
    rw [getLast?_drop_one hbs2, hblast]
  have hMmem : values.getD (values.length - 1) 0 ∈ jsSetDedup (bs.drop 1) :=
    mem_jsSetDedup.2 (mem_of_getLast?_eq hdlast)
  have hub : ∀ x ∈ jsSetDedup (bs.drop 1), x ≤ values.getD (values.length - 1) 0 := by
    intro x hx
    have hx3 : x ∈ bs := (List.drop_sublist 1 bs).subset (mem_jsSetDedup.1 hx)
    exact mem_le_getD_last hs (hbmem x hx3)
  have hlast2 : (jsSetDedup (bs.drop 1)).getLast? =
      some (values.getD (values.length - 1) 0) :=
    getLast?_eq_of_sorted_max (hsort.imp (fun h => le_of_lt h)) hMmem hub
  have hvlast : values.getLast? = some (values.getD (values.length - 1) 0) :=
    getLast?_eq_getD hvne
  exact ⟨bs, hbs, hcc, hsort, hlen9, by rw [hlast2, hvlast],
    fun v hv => ⟨values.getD (values.length - 1) 0, hMmem, mem_le_getD_last hs hv⟩⟩

/-- C1: on an ascending numeric sample with at least 5 distinct values
(U = length of the deduplicated sample), the classifier takes the
natural-breaks branch with k = min(9, U − 1), drops the first returned
boundary (the implicit minimum) and deduplicates; the resulting break set is
strictly increasing of length ≤ 9, and every sample value is assigned a
concrete bucket by the region classifier (never "overflow" or "none"). -/
theorem natural_breaks_breakset_C1 (expressed : String) {values : List ℚ}
    (hs : values.Sorted (· ≤ ·)) (h5 : 5 ≤ (jsSetDedup values).length) :
    ∃ (rawBreaks : List ℚ) (out : ClassifyOutcome),
      ssJenks values (min 9 ((jsSetDedup values).length - 1)) = some rawBreaks ∧
      callbackClassify expressed values = .ok out ∧
      out.mode = ClassifyMode.naturalBreaks ∧
      out.breaks = jsSetDedup (rawBreaks.drop 1) ∧
      out.breaks.Sorted (· < ·) ∧ out.breaks.length ≤ 9 ∧
      ∀ v ∈ values, ∃ b, dataBreak (some (some v)) out.breaks = BucketTag.bucket b := by
  obtain ⟨raw, h1, h2, h3, h4, -, h6⟩ := callbackClassify_naturalBreaks expressed hs h5
  refine ⟨raw, _, h1, h2, rfl, rfl, h3, h4, fun v hv => ?_⟩
  obtain ⟨b, -, hb⟩ := scanBreaks_bucket_of_exists (h6 v hv)
  exact ⟨b, hb⟩

/-- Witness for C1 on the sample [1, 2, 3, 4, 5] (5 distinct values). -/
theorem natural_breaks_breakset_C1_witness :
    ([1, 2, 3, 4, 5] : List ℚ).Sorted (· ≤ ·) ∧
      5 ≤ (jsSetDedup [1, 2, 3, 4, 5]).length ∧
      (∃ (rawBreaks : List ℚ) (out : ClassifyOutcome),
        ssJenks [1, 2, 3, 4, 5] (min 9 ((jsSetDedup [1, 2, 3, 4, 5]).length - 1)) =
          some rawBreaks ∧
        callbackClassify "x" [1, 2, 3, 4, 5] = .ok out ∧
        out.mode = ClassifyMode.naturalBreaks ∧
        out.breaks = jsSetDedup (rawBreaks.drop 1) ∧
        out.breaks.Sorted (· < ·) ∧ out.breaks.length ≤ 9 ∧
        ∀ v ∈ ([1, 2, 3, 4, 5] : List ℚ), ∃ b,
          dataBreak (some (some v)) out.breaks = BucketTag.bucket b) :=
  ⟨by decide, by decide, natural_breaks_breakset_C1 "x" (by decide) (by decide)⟩

/-- C10: in natural-breaks mode the final break equals the maximum of the
numeric sample (the Jenks boundary list ends at the sample maximum and only
the minimum is dropped; deduplication keeps the largest element last), so
the region classifier never returns "overflow" for an in-sample value. -/
theorem natural_breaks_last_max_C10 (expressed : String) {values : List ℚ}
    (hs : values.Sorted (· ≤ ·)) (h5 : 5 ≤ (jsSetDedup values).length) :
    ∃ out : ClassifyOutcome,
      callbackClassify expressed values = .ok out ∧
      out.mode = ClassifyMode.naturalBreaks ∧
      out.breaks.getLast? = values.getLast? ∧
      ∀ v ∈ values, dataBreak (some (some v)) out.breaks ≠ BucketTag.overflow := by
  obtain ⟨raw, -, h2, -, -, h5', h6⟩ := callbackClassify_naturalBreaks expressed hs h5
  refine ⟨_, h2, rfl, h5', fun v hv => ?_⟩
  obtain ⟨b, -, hb⟩ := scanBreaks_bucket_of_exists (h6 v hv)
  show scanBreaks v (jsSetDedup (raw.drop 1)) ≠ BucketTag.overflow
  rw [hb]
  intro hcon
  cases hcon

/-- Witness for C10 on the sample [1, 2, 3, 4, 5, 6] (6 distinct values). -/
theorem natural_breaks_last_max_C10_witness :
    ([1, 2, 3, 4, 5, 6] : List ℚ).Sorted (· ≤ ·) ∧
      5 ≤ (jsSetDedup [1, 2, 3, 4, 5, 6]).length ∧
      (∃ out : ClassifyOutcome,
        callbackClassify "y" [1, 2, 3, 4, 5, 6] = .ok out ∧
        out.mode = ClassifyMode.naturalBreaks ∧
        out.breaks.getLast? = ([1, 2, 3, 4, 5, 6] : List ℚ).getLast? ∧
        ∀ v ∈ ([1, 2, 3, 4, 5, 6] : List ℚ),
          dataBreak (some (some v)) out.breaks ≠ BucketTag.overflow) :=
  ⟨by decide, by decide, natural_breaks_last_max_C10 "y" (by decide) (by decide)⟩
